import Mathlib

/-!
Verification of the link-resolution pipeline of `streaming_scraper.py`
(class `StreamingScraper`): link extraction, validation, resolution via the
external unlocking service, batch processing with pacing, and result
summarisation.  Python strings are Lean `String`s, Python exceptions are
modelled with `Except`/`Option PyErr`, the network is an explicit oracle
parameter, and JSON values are a small inductive type.
-/

namespace StreamingScraper

/-- Python exceptions that the modelled code can raise.  The carried string is
`str(e)` (surrounding quotes of Python's messages are omitted). -/
inductive PyErr where
  | valueError (msg : String)
  | attributeError (msg : String)
  | typeError (msg : String)
deriving DecidableEq

/-- `str(e)` for a modelled exception. -/
def PyErr.text : PyErr → String
  | .valueError m => m
  | .attributeError m => m
  | .typeError m => m

/-- Python `str.lower()` (ASCII range; no exercised input contains non-ASCII
cased letters). -/
def lowerStr (s : String) : String := String.mk (s.data.map Char.toLower)

/-! ## Model of `urllib.parse.urlparse(url).hostname`

The source calls `urlparse(...).hostname` at lines 55, 69 and 145.  The model
follows CPython `urllib/parse.py` (`urlsplit` and the `hostname` property) on
the fragment of behaviour those call sites can observe: scheme stripping,
netloc extraction, the unbalanced-bracket `ValueError`, userinfo/port
stripping and lower-casing, with `none` for an absent/empty hostname. -/

/-- Characters removed from the URL before splitting
(CPython `_UNSAFE_URL_BYTES_TO_REMOVE`). -/
def sanitizeUrl (s : List Char) : List Char :=
  s.filter (fun c => !(c == '\t' || c == '\n' || c == '\r'))

/-- Characters allowed in a URL scheme (CPython `scheme_chars`). -/
def isSchemeChar (c : Char) : Bool :=
  c.isAlpha || c.isDigit || c == '+' || c == '-' || c == '.'

/-- Strip a leading `scheme:` when the part before the first colon is
nonempty, starts with a letter and contains only scheme characters
(CPython `urlsplit`). -/
def dropScheme (s : List Char) : List Char :=
  let pre := s.takeWhile (fun c => !(c == ':'))
  if pre.length < s.length && !pre.isEmpty
      && (pre.headD 'a').isAlpha && pre.all isSchemeChar then
    s.drop (pre.length + 1)
  else s

/-- The netloc: present only after a leading `//`, up to the next `/`, `?`
or `#` (CPython `_splitnetloc`); empty otherwise. -/
def netlocOf (s : List Char) : List Char :=
  match s with
  | '/' :: '/' :: rest => rest.takeWhile (fun c => !(c == '/' || c == '?' || c == '#'))
  | _ => []

/-- `urlsplit` raises `ValueError("Invalid IPv6 URL")` when the netloc has an
unbalanced square bracket. -/
def badBrackets (netloc : List Char) : Bool :=
  netloc.contains '[' != netloc.contains ']'

/-- `netloc.rpartition('@')`: the part after the last `@` (the whole netloc
when there is no `@`). -/
def afterLastAt (netloc : List Char) : List Char :=
  (netloc.reverse.takeWhile (fun c => !(c == '@'))).reverse

/-- The host part of the hostinfo: the bracketed part when a `[` is present,
otherwise everything before the first `:` (CPython `_hostinfo`). -/
def hostOfHostinfo (hostinfo : List Char) : List Char :=
  if hostinfo.contains '[' then
    ((hostinfo.dropWhile (fun c => !(c == '['))).drop 1).takeWhile (fun c => !(c == ']'))
  else
    hostinfo.takeWhile (fun c => !(c == ':'))

/-- The `hostname` property: `none` for an empty host, else the lower-cased
host (an IPv6 zone id after `%` is preserved un-lowered). -/
def hostnameOfNetloc (netloc : List Char) : Option (List Char) :=
  let host := hostOfHostinfo (afterLastAt netloc)
  if host.isEmpty then none
  else
    let base := host.takeWhile (fun c => !(c == '%'))
    let zone := host.drop (base.length + 1)
    some (if zone.isEmpty then base.map Char.toLower
          else base.map Char.toLower ++ '%' :: zone)

/-- `urlparse(link).hostname`: `Except` carries the `ValueError` that
`urlsplit` itself can raise; `none` models a `None` hostname. -/
def urlparseHostname (link : String) : Except PyErr (Option String) :=
  let url := sanitizeUrl link.data
  let netloc := netlocOf (dropScheme url)
  if badBrackets netloc then
    .error (PyErr.valueError "Invalid IPv6 URL")
  else
    .ok ((hostnameOfNetloc netloc).map String.mk)

/-! ## Host registry and host-support test -/

/-- `get_supported_hosts` (lines 29-42): the fixed provider list. -/
def supported_hosts : List String :=
  [ "uploaded.net", "rapidgator.net", "nitroflare.com",
    "katfile.com", "uptobox.com", "1fichier.com",
    "filerio.com", "turbobit.net", "userupload.net",
    "ddownload.com", "dropapk.to", "k2s.cc",
    "keep2share.cc", "filefactory.com", "oboom.com",
    "rapidrar.com", "file-up.org", "uploadgig.com" ]

/-- `startsWithSeg pat s`: `s` begins with the character segment `pat`. -/
def startsWithSeg : List Char → List Char → Bool
  | [], _ => true
  | _ :: _, [] => false
  | a :: as, b :: bs => a == b && startsWithSeg as bs

/-- `containsSeg pat s`: Python's `pat in s` substring test on strings,
modelled on their character lists. -/
def containsSeg (pat : List Char) : List Char → Bool
  | [] => pat.isEmpty
  | c :: cs => startsWithSeg pat (c :: cs) || containsSeg pat cs

/-- `any(host in hostname for host in self.supported_hosts)`: the substring
test duplicated verbatim at lines 56 and 80. -/
def anyHostIn (hostname : String) : Bool :=
  supported_hosts.any (fun host => containsSeg host.data hostname.data)

/-- The end-to-end host-support test as both call sites apply it to the
parsed hostname: lower-case it (line 55 / line 69), then test each registry
entry for substring containment (line 56 / line 80). -/
def hostSupported (hostname : String) : Bool := anyHostIn (lowerStr hostname)

/-! ## `validate_link` (lines 63-93) -/

/-- The dict returned by `validate_link`.  `host_type` and `error` each model
dict-key presence via `Option` (the success dict has `host_type` and no
`error`; the failure dict has `error` and no `host_type`). -/
structure ValidationResult where
  url : String
  host : String
  valid : Bool
  supported : Bool
  host_type : Option String := none
  error : Option String := none
deriving DecidableEq

/-- `str(e)` for the `AttributeError` raised by `None.lower()` at line 69
(Python's quotes omitted). -/
def noneLowerMsg : String := "NoneType object has no attribute lower"

/-- `validate_link`: parse the link, lower-case the hostname, classify; any
exception from the `try` block yields the `valid=False` dict. -/
def validate_link (link : String) : ValidationResult :=
  match urlparseHostname link with
  | .ok (some rawHost) =>
    let hostname := lowerStr rawHost
    if anyHostIn hostname then
      { url := link, host := hostname, valid := true, supported := true,
        host_type := some hostname }
    else
      { url := link, host := hostname, valid := true, supported := false,
        host_type := some "unknown" }
  | .ok none =>
    { url := link, host := "invalid", valid := false, supported := false,
      error := some noneLowerMsg }
  | .error e =>
    { url := link, host := "invalid", valid := false, supported := false,
      error := some e.text }

/-! ## `extract_links_from_text` (lines 44-61)

The pattern `https?://[^\s<>"\'(){}[\]]+(?:\/[^\s<>"\'(){}[\]]*)?` is matched
case-sensitively, scanning left to right, greedily.  Since `/` is itself an
allowed character, a match is the literal scheme followed by the maximal run
of allowed characters; the trailing optional group never extends a match. -/

/-- A character excluded by the character class `[^\s<>"\'(){}[\]]`
(`\s` is ASCII whitespace; no exercised input contains Unicode spaces). -/
def isExcludedChar (c : Char) : Bool :=
  c == ' ' || c == '\t' || c == '\n' || c == '\r' || c == '\x0b' || c == '\x0c' ||
  c == '<' || c == '>' || c == '\x22' || c == '\x27' || c == '(' || c == ')' ||
  c == '\x7b' || c == '\x7d' || c == '[' || c == ']'

/-- Finish a match after the literal scheme: take the maximal nonempty run of
allowed characters; fail when it is empty.  Returns the whole matched token
and the unscanned remainder. -/
def mkUrlMatch (scheme : List Char) (rest : List Char) :
    Option (List Char × List Char) :=
  let body := rest.takeWhile (fun c => !isExcludedChar c)
  if body.isEmpty then none
  else some (scheme ++ body, rest.drop body.length)

/-- Try to match the URL pattern at the start of `s`.  The two literal
alternatives `https://` and `http://` are distinguished by the fifth
character, exactly as the regex `https?://` with backtracking. -/
def matchUrlAt (s : List Char) : Option (List Char × List Char) :=
  match s with
  | 'h' :: 't' :: 't' :: 'p' :: 's' :: ':' :: '/' :: '/' :: rest =>
      mkUrlMatch ['h', 't', 't', 'p', 's', ':', '/', '/'] rest
  | 'h' :: 't' :: 't' :: 'p' :: ':' :: '/' :: '/' :: rest =>
      mkUrlMatch ['h', 't', 't', 'p', ':', '/', '/'] rest
  | _ => none

/-- The scan of `re.findall`, fuelled so that it is structurally recursive
(and hence evaluates inside the kernel): at each position, emit a match and
resume after it, else advance one character.  By `matchUrlAt_length` every
step strictly shrinks the text, so fuel `s.length` never runs out. -/
def findUrlsAux : Nat → List Char → List String
  | 0, _ => []
  | _ + 1, [] => []
  | fuel + 1, c :: cs =>
    match matchUrlAt (c :: cs) with
    | some (m, rest) => String.mk m :: findUrlsAux fuel rest
    | none => findUrlsAux fuel cs

/-- `re.findall` for the URL pattern over the whole text. -/
def findUrls (s : List Char) : List String := findUrlsAux s.length s

/-- The per-token filter of the extraction loop (lines 53-59): parse the
hostname, lower-case it, keep the token when a registry entry is contained;
any exception (`ValueError` from parsing, `AttributeError` from
`None.lower()`) hits the bare `except` and the token is dropped. -/
def extract_keeps (url : String) : Bool :=
  match urlparseHostname url with
  | .ok (some hostname) => anyHostIn (lowerStr hostname)
  | _ => false

/-- `extract_links_from_text`: find URL tokens, filter by supported host,
deduplicate.  `list(set(valid_links))` has unspecified order in Python;
`List.dedup` models it up to ordering (all stated results are singletons or
empty, so ordering is immaterial). -/
def extract_links_from_text (text : String) : List String :=
  ((findUrls text.data).filter extract_keeps).dedup

/-! ## JSON values and the network oracle -/

/-- JSON values as `response.json()` can produce them, restricted to the
shapes the modelled code inspects (`null`, numbers, strings, objects;
arrays and booleans add nothing the call sites distinguish). -/
inductive JsonVal where
  | null
  | num (n : Int)
  | str (s : String)
  | obj (fields : List (String × JsonVal))

/-- `d.get(key)` on a JSON object's field list. -/
def jLookup : List (String × JsonVal) → String → Option JsonVal
  | [], _ => none
  | (k, v) :: rest, key => if k = key then some v else jLookup rest key

/-- Python truthiness of a JSON value. -/
def pyTruthy : JsonVal → Bool
  | .null => false
  | .num n => n != 0
  | .str s => s != ""
  | .obj fields => !fields.isEmpty

/-- The Python type name of a JSON value, for exception texts. -/
def pyTypeName : JsonVal → String
  | .null => "NoneType"
  | .num _ => "int"
  | .str _ => "str"
  | .obj _ => "dict"

/-- What `requests.post(...)` followed by `response.json()` yields for a
link: a parsed JSON value, or any raised exception (timeout, connection
failure, JSON decode error) as its `str(e)` text.  The external service is a
black box, so the pipeline is parameterised by this oracle. -/
inductive NetResult where
  | json (v : JsonVal)
  | exn (msg : String)

/-- `if not self.alldebrid_api_key:` — the key is "configured" when it is
present and nonempty (Python string truthiness). -/
def keyTruthy : Option String → Bool
  | none => false
  | some s => s != ""

/-! ## `ResolutionOutcome` and `unlock_with_alldebrid` (lines 95-134) -/

/-- One result dict of the pipeline.  `data` and `error` model dict-key
presence via `Option`: every success dict carries a `data` key (whose value
may be JSON `null`) and no `error` key, every failure dict carries an
`error` key (whose value may be any JSON value) and no `data` key; `host` is
present only on the "no key / unsupported host" dicts of the batch loop. -/
structure ResolutionOutcome where
  success : Bool
  data : Option JsonVal := none
  error : Option JsonVal := none
  original_link : String
  host : Option String := none

/-- `unlock_with_alldebrid`: the returned outcome, paired with whether an
outbound network call was made.  Everything from the request to the response
inspection sits in one `try`, so a non-dict response body (whose `.get`
raises `AttributeError`) also becomes a failure outcome. -/
def unlock_with_alldebrid (net : String → NetResult) (key : Option String)
    (link : String) : ResolutionOutcome × Bool :=
  if !keyTruthy key then
    ({ success := false, error := some (.str "No AllDebrid API key provided"),
       original_link := link }, false)
  else
    match net link with
    | .exn msg =>
      ({ success := false, error := some (.str msg), original_link := link }, true)
    | .json (.obj fields) =>
      let isSuccess := match jLookup fields "status" with
        | some (.str s) => s == "success"
        | _ => false
      if isSuccess then
        ({ success := true, data := some ((jLookup fields "data").getD .null),
           original_link := link }, true)
      else
        ({ success := false,
           error := some ((jLookup fields "error").getD (.str "Unknown error")),
           original_link := link }, true)
    | .json v =>
      ({ success := false,
         error := some (.str (pyTypeName v ++ " object has no attribute get")),
         original_link := link }, true)

/-! ## `process_links_batch` (lines 136-187)

The loop is modelled as an ordered trace of observable events — outcome
emissions (`results.append`), pacing sleeps and outbound network calls —
together with the exception, if any, that escapes the loop.  Two statements
inside the loop run outside any `try` and can therefore raise:

* line 145, the progress print, calls `urlparse(link).hostname` on the raw
  link, so a link with an unbalanced bracket in its authority raises
  `ValueError` there;
* lines 163-168, the success display, call `.get` on the unlocked payload
  and divide its `size` by 2^20, raising `AttributeError` when the payload
  is not a dict and `TypeError` when its truthy `size` is not a number. -/

inductive Ev where
  | out (o : ResolutionOutcome)
  | sleep
  | netCall (link : String)

/-- The outcome appended when validation rejects the link (lines 150-154). -/
def invalid_outcome (link : String) : ResolutionOutcome :=
  { success := false, error := some (.str "Invalid link format"),
    original_link := link }

/-- The outcome appended when the host is unsupported or no key is
configured (lines 172-180). -/
def no_resolve_outcome (key : Option String) (link : String) (host : String) :
    ResolutionOutcome :=
  { success := false,
    error := some (.str (if keyTruthy key then "Unsupported host"
                         else "No AllDebrid API key")),
    original_link := link, host := some host }

/-- The exception, if any, raised by the success/failure display of an
unlock result (lines 162-171): `data = unlock_result.get("data", ...)` then
`data.get(...)` and `size / (1024*1024)`.  The failure display only reads
`error` with a default and cannot raise. -/
def display_fault (o : ResolutionOutcome) : Option PyErr :=
  if o.success then
    match o.data with
    | some (.obj fields) =>
      let size := (jLookup fields "size").getD (.num 0)
      if pyTruthy size then
        match size with
        | .num _ => none
        | v => some (.typeError
            ("unsupported operand type for div: " ++ pyTypeName v ++ " and int"))
      else none
    | some v => some (.attributeError (pyTypeName v ++ " object has no attribute get"))
    | none => none
  else none

/-- One iteration of the batch loop for `link`; `isLast` is `i < len(links)`
negated (the pacing sleep is skipped after the last link).  Returns the
events of the iteration and the exception that escapes it, if any.  The
`valid=False` branch `continue`s, skipping the sleep. -/
def batch_step (net : String → NetResult) (key : Option String) (link : String)
    (isLast : Bool) : List Ev × Option PyErr :=
  match urlparseHostname link with
  | .error e => ([], some e)
  | .ok _ =>
    let validation := validate_link link
    if validation.valid = false then
      ([.out (invalid_outcome link)], none)
    else if validation.supported && keyTruthy key then
      let r := (unlock_with_alldebrid net key link).1
      match display_fault r with
      | some e => ([.netCall link, .out r], some e)
      | none => ([.netCall link, .out r] ++ (if isLast then [] else [.sleep]), none)
    else
      ([.out (no_resolve_outcome key link validation.host)]
        ++ (if isLast then [] else [.sleep]), none)

/-- The batch loop: iterate `batch_step`, stopping at the first escaping
exception (which aborts the whole batch). -/
def batch_loop (net : String → NetResult) (key : Option String) :
    List String → List Ev × Option PyErr
  | [] => ([], none)
  | link :: rest =>
    match batch_step net key link rest.isEmpty with
    | (evs, some e) => (evs, some e)
    | (evs, none) =>
      let tail := batch_loop net key rest
      (evs ++ tail.1, tail.2)

/-- `process_links_batch`, as its event trace plus escaping exception.  When
the second component is `none` the call returns normally and its return
value `results` is `outcomesOf` of the trace. -/
def process_links_batch (net : String → NetResult) (key : Option String)
    (links : List String) : List Ev × Option PyErr :=
  batch_loop net key links

/-- The `results` list built by the loop: the outcome emissions in order. -/
def outcomesOf (evs : List Ev) : List ResolutionOutcome :=
  evs.filterMap (fun e => match e with | .out o => some o | _ => none)

/-- Number of pacing sleeps in a trace. -/
def sleepsOf (evs : List Ev) : Nat :=
  (evs.filter (fun e => match e with | .sleep => true | _ => false)).length

/-- Number of outbound network calls in a trace. -/
def netCallsOf (evs : List Ev) : Nat :=
  (evs.filter (fun e => match e with | .netCall _ => true | _ => false)).length

/-- A constant network oracle for concrete evaluations: every request fails
with a transport error. -/
def netConst : String → NetResult := fun _ => NetResult.exn "connection error"

/-! ## The summary of `display_results` (lines 263-297)

The counting loop (`successful`/`failed`, incremented by the truthiness of
`result.get("success")`) and the success-rate line; the console rendering
around them is presentation only and is not modelled. -/

/-- `(successful, failed, success rate percent)` as `display_results`
computes them; the rate is rational arithmetic (`3/4*100 = 75` is exact in
Python floats as well), `0` when no outcome was counted. -/
def display_results_summary (results : List ResolutionOutcome) : Nat × Nat × ℚ :=
  let counts := results.foldl
    (fun (acc : Nat × Nat) result =>
      if result.success then (acc.1 + 1, acc.2) else (acc.1, acc.2 + 1))
    (0, 0)
  let successful := counts.1
  let failed := counts.2
  (successful, failed,
    if successful + failed > 0 then
      (successful : ℚ) / ((successful : ℚ) + (failed : ℚ)) * 100
    else 0)

/-- Scanner for sleep placement: accepts the trace iff every `sleep` event
immediately follows an outcome emission.  The Boolean argument records
whether the previous event was an outcome emission. -/
def pacedAux : Bool → List Ev → Bool
  | _, [] => true
  | prev, .sleep :: rest => prev && pacedAux false rest
  | _, .out _ :: rest => pacedAux true rest
  | _, .netCall _ :: rest => pacedAux false rest

/-- Every pacing sleep of the trace occurs immediately after an outcome
emission (in particular a sleep is never first and never follows another
sleep or a network call directly). -/
def pacedAfterOutcome (evs : List Ev) : Bool := pacedAux false evs

/-- Exactly one of "success with the `data` key present" and "failure with
the `error` key present" holds of an outcome — and the other key is then
absent.  The two cases are mutually exclusive since they disagree on
`success`. -/
def exclusiveOutcome (o : ResolutionOutcome) : Prop :=
  (o.success = true ∧ (o.data).isSome = true ∧ o.error = none)
  ∨ (o.success = false ∧ (o.error).isSome = true ∧ o.data = none)

/-! ## Per-link abstractions of the batch loop

`batch_step` is refactored, for reasoning, into a per-link outcome and a
per-link escaping exception; the lemmas below connect them to the loop. -/

/-- The exception escaping the processing of one link, if any: the progress
print's `ValueError` (line 145) or the success display's fault
(lines 163-168). -/
def link_crash (net : String → NetResult) (key : Option String) (link : String) :
    Option PyErr :=
  match urlparseHostname link with
  | .error e => some e
  | .ok _ =>
    let validation := validate_link link
    if validation.valid && (validation.supported && keyTruthy key) then
      display_fault (unlock_with_alldebrid net key link).1
    else none

/-- The outcome appended for one link when its processing does not abort the
batch. -/
def link_outcome (net : String → NetResult) (key : Option String) (link : String) :
    ResolutionOutcome :=
  let validation := validate_link link
  if validation.valid = false then invalid_outcome link
  else if validation.supported && keyTruthy key then
    (unlock_with_alldebrid net key link).1
  else no_resolve_outcome key link validation.host

lemma batch_step_crash (net : String → NetResult) (key : Option String)
    (link : String) (isLast : Bool) :
    (batch_step net key link isLast).2 = link_crash net key link := by
  unfold batch_step link_crash
  cases hp : urlparseHostname link with
  | error e => rfl
  | ok o =>
    dsimp only
    by_cases hv : (validate_link link).valid
    · simp only [hv, Bool.true_eq_false, if_false, Bool.true_and]
      by_cases hs : ((validate_link link).supported && keyTruthy key) = true
      · simp only [hs, if_true]
        cases hd : display_fault (unlock_with_alldebrid net key link).1 <;> simp
      · simp only [hs, if_false]
        simp at hs
        simp [hs]
    · simp only [Bool.not_eq_true] at hv
      simp [hv]

lemma batch_step_outs (net : String → NetResult) (key : Option String)
    (link : String) (isLast : Bool)
    (h : link_crash net key link = none) :
    outcomesOf (batch_step net key link isLast).1 = [link_outcome net key link] := by
  unfold batch_step link_outcome
  unfold link_crash at h
  cases hp : urlparseHostname link with
  | error e => rw [hp] at h; exact absurd h (by simp)
  | ok o =>
    rw [hp] at h
    dsimp only at h ⊢
    by_cases hv : (validate_link link).valid
    · simp only [hv, Bool.true_eq_false, if_false, Bool.true_and] at h ⊢
      by_cases hs : ((validate_link link).supported && keyTruthy key) = true
      · simp only [hs, if_true] at h ⊢
        rw [h]
        cases isLast <;> simp [outcomesOf]
      · simp only [hs, if_false]
        cases isLast <;> simp [outcomesOf]
    · simp only [Bool.not_eq_true] at hv
      simp [hv, outcomesOf]

lemma outcomesOf_append (a b : List Ev) :
    outcomesOf (a ++ b) = outcomesOf a ++ outcomesOf b :=
  List.filterMap_append a b _

lemma batch_loop_crash_none_iff (net : String → NetResult) (key : Option String)
    (links : List String) :
    (batch_loop net key links).2 = none ↔
      ∀ l ∈ links, link_crash net key l = none := by
  induction links with
  | nil => simp [batch_loop]
  | cons link rest ih =>
    unfold batch_loop
    cases hstep : batch_step net key link rest.isEmpty with
    | mk evs cr =>
      have hcr : cr = link_crash net key link := by
        have := batch_step_crash net key link rest.isEmpty
        rw [hstep] at this; exact this
      cases cr with
      | some e =>
        simp only [List.mem_cons]
        constructor
        · intro h; exact absurd h (by simp)
        · intro h
          have := h link (Or.inl rfl)
          rw [← hcr] at this
          exact absurd this (by simp)
      | none =>
        simp only [List.mem_cons]
        constructor
        · intro h
          intro l hl
          rcases hl with rfl | hl
          · rw [← hcr]
          · exact (ih.mp (by simpa using h)) l hl
        · intro h
          simpa using ih.mpr (fun l hl => h l (Or.inr hl))

/-- A crash-free batch emits exactly the per-link outcomes, in input order. -/
lemma batch_loop_outs (net : String → NetResult) (key : Option String)
    (links : List String)
    (h : ∀ l ∈ links, link_crash net key l = none) :
    outcomesOf (batch_loop net key links).1 = links.map (link_outcome net key) := by
  induction links with
  | nil => simp [batch_loop, outcomesOf]
  | cons link rest ih =>
    have hlink : link_crash net key link = none := h link (by simp)
    unfold batch_loop
    cases hstep : batch_step net key link rest.isEmpty with
    | mk evs cr =>
      have hcr : cr = link_crash net key link := by
        have := batch_step_crash net key link rest.isEmpty
        rw [hstep] at this; exact this
      rw [hlink] at hcr
      subst hcr
      dsimp only
      rw [outcomesOf_append]
      have hevs : outcomesOf evs = [link_outcome net key link] := by
        have := batch_step_outs net key link rest.isEmpty hlink
        rw [hstep] at this; exact this
      rw [hevs, ih (fun l hl => h l (by simp [hl]))]
      rfl

/-! ## Supporting lemmas -/

lemma mkUrlMatch_length {scheme rest m r} (h : mkUrlMatch scheme rest = some (m, r)) :
    r.length ≤ rest.length := by
  unfold mkUrlMatch at h
  dsimp only at h
  split at h
  · exact absurd h (by simp)
  · simp only [Option.some.injEq, Prod.mk.injEq] at h
    rw [← h.2, List.length_drop]
    omega

/-- Every successful match strictly shrinks the text, so the fuel
`s.length` given to `findUrlsAux` by `findUrls` never runs out. -/
lemma matchUrlAt_length {s m r} (h : matchUrlAt s = some (m, r)) :
    r.length < s.length := by
  unfold matchUrlAt at h
  split at h
  · have := mkUrlMatch_length h
    simp only [List.length_cons] at *
    omega
  · have := mkUrlMatch_length h
    simp only [List.length_cons] at *
    omega
  · exact absurd h (by simp)

lemma validate_valid_parse {link : String}
    (h : (validate_link link).valid = true) :
    ∃ hostname, urlparseHostname link = .ok (some hostname) := by
  unfold validate_link at h
  cases hp : urlparseHostname link with
  | error e => rw [hp] at h; exact absurd h (by simp)
  | ok o =>
    cases o with
    | none => rw [hp] at h; exact absurd h (by simp)
    | some hostname => exact ⟨hostname, rfl⟩

lemma link_outcome_original (net : String → NetResult) (key : Option String)
    (link : String) : (link_outcome net key link).original_link = link := by
  unfold link_outcome invalid_outcome no_resolve_outcome unlock_with_alldebrid
  dsimp only
  repeat' split
  all_goals rfl

/-- Every outcome `unlock_with_alldebrid` returns is a success with a `data`
key and no `error` key, or a failure with an `error` key and no `data` key. -/
lemma unlock_exclusive (net : String → NetResult) (key : Option String)
    (link : String) :
    ((unlock_with_alldebrid net key link).1.success = true
      ∧ ((unlock_with_alldebrid net key link).1.data).isSome = true
      ∧ (unlock_with_alldebrid net key link).1.error = none)
    ∨ ((unlock_with_alldebrid net key link).1.success = false
      ∧ ((unlock_with_alldebrid net key link).1.error).isSome = true
      ∧ (unlock_with_alldebrid net key link).1.data = none) := by
  unfold unlock_with_alldebrid
  dsimp only
  repeat' split
  all_goals simp

lemma batch_step_out_cases (net : String → NetResult) (key : Option String)
    (link : String) (isLast : Bool) (o : ResolutionOutcome)
    (h : o ∈ outcomesOf (batch_step net key link isLast).1) :
    o = invalid_outcome link
    ∨ o = no_resolve_outcome key link (validate_link link).host
    ∨ o = (unlock_with_alldebrid net key link).1 := by
  unfold batch_step at h
  cases hp : urlparseHostname link with
  | error e => rw [hp] at h; simp [outcomesOf] at h
  | ok v =>
    rw [hp] at h
    dsimp only at h
    by_cases hv : (validate_link link).valid = false
    · simp only [hv, if_true] at h
      simp [outcomesOf] at h
      exact Or.inl h
    · simp only [hv, if_false] at h
      by_cases hs : ((validate_link link).supported && keyTruthy key) = true
      · simp only [hs, if_true] at h
        rcases hd : display_fault (unlock_with_alldebrid net key link).1 with _ | e <;>
          rw [hd] at h
        · cases isLast <;> simp [outcomesOf] at h <;>
            exact Or.inr (Or.inr h)
        · simp [outcomesOf] at h
          exact Or.inr (Or.inr h)
      · simp only [hs, if_false] at h
        cases isLast <;> simp [outcomesOf] at h <;>
          exact Or.inr (Or.inl h)

lemma sleepsOf_append (a b : List Ev) :
    sleepsOf (a ++ b) = sleepsOf a + sleepsOf b := by
  unfold sleepsOf
  rw [List.filter_append, List.length_append]

lemma batch_step_sleeps (net : String → NetResult) (key : Option String)
    (link : String) (isLast : Bool)
    (h : link_crash net key link = none) :
    sleepsOf (batch_step net key link isLast).1
      = if !isLast && (validate_link link).valid then 1 else 0 := by
  unfold batch_step
  unfold link_crash at h
  cases hp : urlparseHostname link with
  | error e => rw [hp] at h; exact absurd h (by simp)
  | ok v =>
    rw [hp] at h
    dsimp only at h ⊢
    by_cases hv : (validate_link link).valid = false
    · simp [hv, sleepsOf]
    · simp only [hv, if_false]
      simp only [Bool.not_eq_false] at hv
      by_cases hs : ((validate_link link).supported && keyTruthy key) = true
      · simp only [hv, Bool.true_and, hs, if_true] at h ⊢
        rw [h]
        cases isLast <;> simp [sleepsOf]
      · simp only [hs, if_false]
        cases isLast <;> simp [hv, sleepsOf]

lemma batch_loop_sleeps (net : String → NetResult) (key : Option String)
    (links : List String)
    (h : ∀ l ∈ links, link_crash net key l = none) :
    sleepsOf (batch_loop net key links).1
      = (links.dropLast.filter (fun l => (validate_link l).valid)).length := by
  induction links with
  | nil => simp [batch_loop, sleepsOf]
  | cons link rest ih =>
    have hlink : link_crash net key link = none := h link (by simp)
    unfold batch_loop
    cases hstep : batch_step net key link rest.isEmpty with
    | mk evs cr =>
      have hcr : cr = link_crash net key link := by
        have := batch_step_crash net key link rest.isEmpty
        rw [hstep] at this; exact this
      rw [hlink] at hcr
      subst hcr
      dsimp only
      rw [sleepsOf_append]
      have hevs : sleepsOf evs
          = if !rest.isEmpty && (validate_link link).valid then 1 else 0 := by
        have := batch_step_sleeps net key link rest.isEmpty hlink
        rw [hstep] at this; exact this
      rw [hevs, ih (fun l hl => h l (by simp [hl]))]
      cases rest with
      | nil => simp [batch_loop, sleepsOf]
      | cons r rs =>
        by_cases hv : (validate_link link).valid
        · simp [hv, List.dropLast]
          omega
        · simp [hv, List.dropLast]

lemma batch_step_paced (net : String → NetResult) (key : Option String)
    (link : String) (isLast : Bool)
    (h : link_crash net key link = none)
    (tail : List Ev) (htail : ∀ b, pacedAux b tail = true) :
    ∀ b, pacedAux b ((batch_step net key link isLast).1 ++ tail) = true := by
  intro b
  unfold batch_step
  unfold link_crash at h
  cases hp : urlparseHostname link with
  | error e => rw [hp] at h; exact absurd h (by simp)
  | ok v =>
    rw [hp] at h
    dsimp only at h ⊢
    by_cases hv : (validate_link link).valid = false
    · simp only [hv, if_true]
      simpa [pacedAux] using htail true
    · simp only [hv, if_false]
      simp only [Bool.not_eq_false] at hv
      by_cases hs : ((validate_link link).supported && keyTruthy key) = true
      · simp only [hv, Bool.true_and, hs, if_true] at h ⊢
        rw [h]
        cases isLast <;> simp [pacedAux] <;> first
          | exact htail true
          | exact htail false
      · simp only [hs, if_false]
        cases isLast <;> simp [pacedAux] <;> first
          | exact htail true
          | exact htail false

lemma batch_loop_paced (net : String → NetResult) (key : Option String)
    (links : List String)
    (h : ∀ l ∈ links, link_crash net key l = none) :
    ∀ b, pacedAux b (batch_loop net key links).1 = true := by
  induction links with
  | nil => intro b; simp [batch_loop, pacedAux]
  | cons link rest ih =>
    intro b
    have hlink : link_crash net key link = none := h link (by simp)
    unfold batch_loop
    cases hstep : batch_step net key link rest.isEmpty with
    | mk evs cr =>
      have hcr : cr = link_crash net key link := by
        have := batch_step_crash net key link rest.isEmpty
        rw [hstep] at this; exact this
      rw [hlink] at hcr
      subst hcr
      dsimp only
      have := batch_step_paced net key link rest.isEmpty hlink
        (batch_loop net key rest).1 (ih (fun l hl => h l (by simp [hl]))) b
      rw [hstep] at this
      exact this

lemma startsWithSeg_iff (pat : List Char) :
    ∀ s, startsWithSeg pat s = true ↔ ∃ r, pat ++ r = s := by
  induction pat with
  | nil => intro s; simp [startsWithSeg]
  | cons a as ih =>
    intro s
    cases s with
    | nil => simp [startsWithSeg]
    | cons b bs =>
      simp only [startsWithSeg, Bool.and_eq_true, beq_iff_eq, ih bs,
        List.cons_append, List.cons.injEq]
      constructor
      · rintro ⟨rfl, r, rfl⟩; exact ⟨r, rfl, rfl⟩
      · rintro ⟨r, rfl, rfl⟩; exact ⟨rfl, r, rfl⟩

lemma containsSeg_iff (pat : List Char) :
    ∀ s, containsSeg pat s = true ↔ ∃ l r, l ++ pat ++ r = s := by
  intro s
  induction s with
  | nil =>
    simp only [containsSeg, List.isEmpty_iff]
    constructor
    · rintro rfl; exact ⟨[], [], rfl⟩
    · rintro ⟨l, r, h⟩
      rcases List.append_eq_nil.mp (List.append_eq_nil.mp h).1 with ⟨-, h2⟩
      exact h2
  | cons c cs ih =>
    simp only [containsSeg, Bool.or_eq_true, startsWithSeg_iff, ih]
    constructor
    · rintro (⟨r, hr⟩ | ⟨l, r, rfl⟩)
      · exact ⟨[], r, by simpa using hr⟩
      · exact ⟨c :: l, r, rfl⟩
    · rintro ⟨l, r, h⟩
      cases l with
      | nil => exact Or.inl ⟨r, by simpa using h⟩
      | cons x xs =>
        rw [List.cons_append, List.cons_append] at h
        injection h with h1 h2
        exact Or.inr ⟨xs, r, h2⟩

lemma matchUrlAt_starts {s : List Char} {x : List Char × List Char}
    (h : matchUrlAt s = some x) :
    startsWithSeg ['h', 't', 't', 'p'] s = true := by
  unfold matchUrlAt at h
  split at h
  · simp [startsWithSeg]
  · simp [startsWithSeg]
  · exact absurd h (by simp)

lemma findUrlsAux_no_http :
    ∀ (fuel : Nat) (s : List Char),
      containsSeg ['h', 't', 't', 'p'] s = false → findUrlsAux fuel s = [] := by
  intro fuel
  induction fuel with
  | zero => intro s _; rfl
  | succ fuel ih =>
    intro s h
    cases s with
    | nil => rfl
    | cons c cs =>
      unfold containsSeg at h
      rw [Bool.or_eq_false_iff] at h
      unfold findUrlsAux
      cases hm : matchUrlAt (c :: cs) with
      | some x =>
        have := matchUrlAt_starts hm
        rw [this] at h
        exact absurd h.1 (by simp)
      | none => exact ih cs h.2

lemma foldl_success_counts (results : List ResolutionOutcome) :
    ∀ a b : Nat,
      results.foldl
        (fun (acc : Nat × Nat) result =>
          if result.success then (acc.1 + 1, acc.2) else (acc.1, acc.2 + 1))
        (a, b)
      = (a + (results.filter (fun r => r.success)).length,
         b + (results.filter (fun r => !r.success)).length) := by
  induction results with
  | nil => intro a b; simp
  | cons r rs ih =>
    intro a b
    by_cases hr : r.success
    · simp only [List.foldl_cons, hr, if_true, ih, List.filter_cons]
      simp [hr]
      omega
    · simp only [List.foldl_cons, hr, if_false, ih, List.filter_cons]
      simp [hr]
      omega

/-! ## Claim theorems -/

/-- C1, counterexample: on the single-link batch `["http://["]` the claim
fails — the progress print's `urlparse` raises
`ValueError("Invalid IPv6 URL")` before validation, the exception escapes
`process_links_batch`, and no outcome at all is returned (instead of a
1-element sequence with `original_link = "http://["`). -/
theorem C1_counterexample :
    (process_links_batch netConst none ["http://["]).2
        = some (PyErr.valueError "Invalid IPv6 URL")
    ∧ (outcomesOf (process_links_batch netConst none ["http://["]).1).length
        ≠ (["http://["] : List String).length :=
  ⟨rfl, by decide⟩

/-- C1 (amended): for every list of links and any credential, provided no
link's processing aborts the batch (its progress-print parse does not raise
and, when it is resolved, displaying the resolution does not raise — which
is automatic for every failure outcome), `process_links_batch` returns
normally and the outcome sequence, projected to `original_link`, is exactly
the input list: same length, outcome `i` for input link `i`, valid, invalid
and unsupported links alike, none dropped. -/
theorem C1_order_preserved_no_abort (net : String → NetResult)
    (key : Option String) (links : List String)
    (h : ∀ l ∈ links, link_crash net key l = none) :
    (process_links_batch net key links).2 = none
    ∧ (outcomesOf (process_links_batch net key links).1).map
        (fun o => o.original_link) = links := by
  constructor
  · exact (batch_loop_crash_none_iff net key links).mpr h
  · show (outcomesOf (batch_loop net key links).1).map _ = links
    rw [batch_loop_outs net key links h, List.map_map]
    have hid : ((fun o : ResolutionOutcome => o.original_link)
        ∘ link_outcome net key) = id :=
      funext fun l => link_outcome_original net key l
    rw [hid, List.map_id]

/-- C1, witness: a concrete 3-link batch (invalid, supported, unsupported)
with no credential satisfies the no-abort hypothesis and preserves order. -/
theorem C1_witness :
    (process_links_batch netConst none
        ["not a url", "http://rapidgator.net/a", "http://example.com/b"]).2 = none
    ∧ (outcomesOf (process_links_batch netConst none
        ["not a url", "http://rapidgator.net/a", "http://example.com/b"]).1).map
          (fun o => o.original_link)
        = ["not a url", "http://rapidgator.net/a", "http://example.com/b"] :=
  C1_order_preserved_no_abort netConst none
    ["not a url", "http://rapidgator.net/a", "http://example.com/b"]
    (by decide)

/-- C2, counterexample: in the batch
`["http://uploaded.net/a", "http://[", "http://uploaded.net/b"]` with an API
key, the fault triggered by link #2 (a `ValueError` from the progress
print's `urlparse`, raised inside `process_links_batch` while processing
that link) is NOT caught at the link's boundary: the exception escapes, the
batch aborts, and only one outcome (link #1's) was ever emitted — link #3
is never processed and no outcome list is returned. -/
theorem C2_counterexample :
    ((process_links_batch netConst (some "KEY")
        ["http://uploaded.net/a", "http://[", "http://uploaded.net/b"]).2).isSome
        = true
    ∧ (outcomesOf (process_links_batch netConst (some "KEY")
        ["http://uploaded.net/a", "http://[", "http://uploaded.net/b"]).1).length
        = 1 :=
  ⟨rfl, rfl⟩

/-- C2 (amended): faults raised inside a link's validation are absorbed by
`validate_link`'s catch-all (yielding a failure outcome), and faults raised
inside its resolution — here, any transport fault `msg` from the network —
are absorbed by `unlock_with_alldebrid`'s catch-all, so the batch continues:
with such a faulting link between `pre` and `post`, the batch returns
normally, the faulting link yields a failure outcome carrying `msg`, and
every other link still yields exactly its own outcome, unaffected.  (Faults
outside validation/resolution — the progress print or the success display —
are NOT caught and abort the batch; see the counterexample.) -/
theorem C2_resolution_fault_isolated (net : String → NetResult)
    (key : Option String) (pre post : List String) (link msg : String)
    (hpre : ∀ l ∈ pre, link_crash net key l = none)
    (hpost : ∀ l ∈ post, link_crash net key l = none)
    (hvalid : (validate_link link).valid = true)
    (hsup : (validate_link link).supported = true)
    (hkey : keyTruthy key = true)
    (hnet : net link = NetResult.exn msg) :
    (process_links_batch net key (pre ++ link :: post)).2 = none
    ∧ outcomesOf (process_links_batch net key (pre ++ link :: post)).1
        = pre.map (link_outcome net key)
          ++ ({ success := false, error := some (.str msg),
                original_link := link } : ResolutionOutcome)
             :: post.map (link_outcome net key) := by
  have hunlock : (unlock_with_alldebrid net key link).1
      = { success := false, error := some (.str msg), original_link := link } := by
    unfold unlock_with_alldebrid
    rw [hkey, hnet]
    rfl
  have hlink : link_crash net key link = none := by
    unfold link_crash
    obtain ⟨hn, hp⟩ := validate_valid_parse hvalid
    rw [hp]
    dsimp only
    rw [hvalid, hsup, hkey]
    simp only [Bool.and_self, Bool.true_and, if_true]
    rw [hunlock]
    rfl
  have hall : ∀ l ∈ pre ++ link :: post, link_crash net key l = none := by
    intro l hl
    rcases List.mem_append.mp hl with hl | hl
    · exact hpre l hl
    · rcases List.mem_cons.mp hl with rfl | hl
      · exact hlink
      · exact hpost l hl
  constructor
  · exact (batch_loop_crash_none_iff net key _).mpr hall
  · show outcomesOf (batch_loop net key _).1 = _
    rw [batch_loop_outs net key _ hall, List.map_append, List.map_cons]
    have : link_outcome net key link
        = { success := false, error := some (.str msg), original_link := link } := by
      unfold link_outcome
      dsimp only
      rw [hvalid, hsup, hkey]
      simp only [Bool.true_eq_false, if_false, Bool.and_self, if_true]
      exact hunlock
    rw [this]

/-- C2, witness: with an invalid link before and an unsupported link after,
a supported link whose resolution hits a transport fault still lets the
whole batch complete, with all three outcomes present and in order. -/
theorem C2_witness :
    (process_links_batch netConst (some "KEY")
        (["not a url"] ++ "http://rapidgator.net/mid" :: ["http://example.com/z"])).2
        = none
    ∧ outcomesOf (process_links_batch netConst (some "KEY")
        (["not a url"] ++ "http://rapidgator.net/mid" :: ["http://example.com/z"])).1
      = ["not a url"].map (link_outcome netConst (some "KEY"))
        ++ ({ success := false, error := some (.str "connection error"),
              original_link := "http://rapidgator.net/mid" } : ResolutionOutcome)
           :: ["http://example.com/z"].map (link_outcome netConst (some "KEY")) :=
  C2_resolution_fault_isolated netConst (some "KEY")
    ["not a url"] ["http://example.com/z"] "http://rapidgator.net/mid"
    "connection error"
    (by decide) (by decide) (by decide) (by decide) (by decide) rfl

/-- C3: every `ResolutionOutcome` produced anywhere in the pipeline — by
`unlock_with_alldebrid` for any network behaviour, key and link, or
synthesized by `process_links_batch` for any batch — satisfies exactly one
of "success with the payload (`data`) field present" and "failure with the
`error` field present" (and the other field is then absent). -/
theorem C3_outcome_exclusive :
    (∀ (net : String → NetResult) (key : Option String) (link : String),
      exclusiveOutcome (unlock_with_alldebrid net key link).1)
    ∧ (∀ (net : String → NetResult) (key : Option String) (links : List String)
        (o : ResolutionOutcome),
        o ∈ outcomesOf (process_links_batch net key links).1 →
          exclusiveOutcome o) := by
  constructor
  · intro net key link
    exact unlock_exclusive net key link
  · intro net key links
    show ∀ o, o ∈ outcomesOf (batch_loop net key links).1 → exclusiveOutcome o
    induction links with
    | nil => intro o ho; simp [batch_loop, outcomesOf] at ho
    | cons link rest ih =>
      intro o ho
      unfold batch_loop at ho
      cases hstep : batch_step net key link rest.isEmpty with
      | mk evs cr =>
        rw [hstep] at ho
        have hcases : o ∈ outcomesOf evs →
            o = invalid_outcome link
            ∨ o = no_resolve_outcome key link (validate_link link).host
            ∨ o = (unlock_with_alldebrid net key link).1 := by
          intro hm
          have := batch_step_out_cases net key link rest.isEmpty o
          rw [hstep] at this
          exact this hm
        have hone : o = invalid_outcome link
            ∨ o = no_resolve_outcome key link (validate_link link).host
            ∨ o = (unlock_with_alldebrid net key link).1
            ∨ o ∈ outcomesOf (batch_loop net key rest).1 := by
          cases cr with
          | some e =>
            dsimp only at ho
            rcases hcases ho with h | h | h
            · exact Or.inl h
            · exact Or.inr (Or.inl h)
            · exact Or.inr (Or.inr (Or.inl h))
          | none =>
            dsimp only at ho
            rw [outcomesOf_append] at ho
            rcases List.mem_append.mp ho with hm | hm
            · rcases hcases hm with h | h | h
              · exact Or.inl h
              · exact Or.inr (Or.inl h)
              · exact Or.inr (Or.inr (Or.inl h))
            · exact Or.inr (Or.inr (Or.inr hm))
        rcases hone with rfl | rfl | rfl | hm
        · exact Or.inr (by simp [invalid_outcome])
        · exact Or.inr (by simp [no_resolve_outcome])
        · exact unlock_exclusive net key link
        · exact ih o hm

/-- C3, witness: the outcome the batch synthesizes for an invalid link is
exclusive (failure with the error field present). -/
theorem C3_witness : exclusiveOutcome (invalid_outcome "nope") := by
  have hmem : invalid_outcome "nope"
      ∈ outcomesOf (process_links_batch netConst none ["nope"]).1 := by
    have h : outcomesOf (process_links_batch netConst none ["nope"]).1
        = [invalid_outcome "nope"] := rfl
    rw [h]
    exact List.mem_singleton.mpr rfl
  exact C3_outcome_exclusive.2 netConst none ["nope"] (invalid_outcome "nope") hmem

/-- C4: `validate_link` is total — it returns a result for every string —
and a result is invalid exactly when the URL parse raises or yields no
usable hostname; every invalid result carries `supported = false` and
`host = "invalid"`.  The three example garbage inputs (empty string,
non-URL text, binary bytes) are all classified invalid. -/
theorem C4_validator_total :
    (∀ link : String, (validate_link link).valid = false ↔
        (urlparseHostname link = .ok none
          ∨ ∃ e, urlparseHostname link = .error e))
    ∧ (∀ link : String, (validate_link link).valid = false →
        (validate_link link).host = "invalid"
        ∧ (validate_link link).supported = false)
    ∧ (validate_link "").valid = false
    ∧ (validate_link "not a url").valid = false
    ∧ (validate_link "\x00\x01binary\x02garbage").valid = false := by
  refine ⟨?_, ?_, by decide, by decide, by decide⟩
  · intro link
    unfold validate_link
    cases hp : urlparseHostname link with
    | error e =>
      simp only [hp]
      constructor
      · intro _; exact Or.inr ⟨e, rfl⟩
      · intro _; trivial
    | ok o =>
      cases o with
      | none => simp [hp]
      | some hn =>
        simp only [hp]
        constructor
        · intro h
          by_cases ha : anyHostIn (lowerStr hn) <;> simp [ha] at h
        · rintro (h | ⟨e, h⟩) <;> exact absurd h (by simp)
  · intro link h
    unfold validate_link at h ⊢
    cases hp : urlparseHostname link with
    | error e => simp [hp]
    | ok o =>
      cases o with
      | none => simp [hp]
      | some hn =>
        rw [hp] at h
        by_cases ha : anyHostIn (lowerStr hn) <;> simp [ha] at h

/-- C4, witness: the invalid classification of `"not a url"` carries
`host = "invalid"` and `supported = false`. -/
theorem C4_witness :
    (validate_link "not a url").host = "invalid"
    ∧ (validate_link "not a url").supported = false :=
  C4_validator_total.2.1 "not a url" (by decide)

/-- C5: with an absent (or empty, hence falsy) credential,
`unlock_with_alldebrid` fails immediately — `success = false`, the error
naming the missing API key, and no network call — and `process_links_batch`
on a single valid supported link returns exactly one failure outcome whose
error names the missing API key, with a trace containing no network call
event (and no sleep, the link being last). -/
theorem C5_no_credential (net : String → NetResult) (key : Option String)
    (link : String)
    (hkey : keyTruthy key = false)
    (hvalid : (validate_link link).valid = true)
    (hsup : (validate_link link).supported = true) :
    (unlock_with_alldebrid net key link).1.success = false
    ∧ (unlock_with_alldebrid net key link).1.error
        = some (.str "No AllDebrid API key provided")
    ∧ (unlock_with_alldebrid net key link).2 = false
    ∧ process_links_batch net key [link]
        = ([Ev.out { success := false,
                     error := some (.str "No AllDebrid API key"),
                     original_link := link,
                     host := some (validate_link link).host }], none)
    ∧ netCallsOf (process_links_batch net key [link]).1 = 0 := by
  have hu : unlock_with_alldebrid net key link
      = ({ success := false, error := some (.str "No AllDebrid API key provided"),
           original_link := link }, false) := by
    unfold unlock_with_alldebrid
    rw [hkey]
    rfl
  have hbatch : process_links_batch net key [link]
      = ([Ev.out { success := false,
                   error := some (.str "No AllDebrid API key"),
                   original_link := link,
                   host := some (validate_link link).host }], none) := by
    obtain ⟨hn, hp⟩ := validate_valid_parse hvalid
    show batch_loop net key [link] = _
    unfold batch_loop batch_step
    rw [hp]
    dsimp only
    rw [hvalid, hkey]
    simp only [Bool.true_eq_false, if_false, Bool.and_false, if_true]
    unfold no_resolve_outcome
    rw [hkey]
    rfl
  refine ⟨by rw [hu], by rw [hu], by rw [hu], hbatch, ?_⟩
  rw [hbatch]
  rfl

/-- C5, witness: a valid supported rapidgator link with `key = none`. -/
theorem C5_witness :
    (unlock_with_alldebrid netConst none "https://rapidgator.net/file/a").1.success
        = false
    ∧ (unlock_with_alldebrid netConst none "https://rapidgator.net/file/a").1.error
        = some (.str "No AllDebrid API key provided")
    ∧ (unlock_with_alldebrid netConst none "https://rapidgator.net/file/a").2 = false
    ∧ process_links_batch netConst none ["https://rapidgator.net/file/a"]
        = ([Ev.out { success := false,
                     error := some (.str "No AllDebrid API key"),
                     original_link := "https://rapidgator.net/file/a",
                     host := some (validate_link "https://rapidgator.net/file/a").host }],
           none)
    ∧ netCallsOf (process_links_batch netConst none
        ["https://rapidgator.net/file/a"]).1 = 0 :=
  C5_no_credential netConst none "https://rapidgator.net/file/a"
    (by decide) (by decide) (by decide)

/-- C6: in any batch that completes (no escaping exception), the number of
pacing sleeps is exactly the number of links that are not the last one and
are not rejected as invalid format — one fixed pause per such link,
regardless of the network oracle, the credential, or whether the link
triggered a network call — and every sleep in the trace occurs immediately
after an outcome emission (no pause before the first link, after the last
link, or anywhere else). -/
theorem C6_pacing (net : String → NetResult) (key : Option String)
    (links : List String)
    (h : (process_links_batch net key links).2 = none) :
    sleepsOf (process_links_batch net key links).1
        = (links.dropLast.filter (fun l => (validate_link l).valid)).length
    ∧ pacedAfterOutcome (process_links_batch net key links).1 = true := by
  have hall : ∀ l ∈ links, link_crash net key l = none :=
    (batch_loop_crash_none_iff net key links).mp h
  exact ⟨batch_loop_sleeps net key links hall,
    batch_loop_paced net key links hall false⟩

/-- C6, witness: a 3-link batch (invalid, valid-unsupported, invalid) with
no credential completes with exactly one sleep — the invalid first link is
not charged a delay, the valid middle link is, the last link never is. -/
theorem C6_witness :
    sleepsOf (process_links_batch netConst none
        ["not a url", "http://rapidgator.net/a", "x"]).1
      = ((["not a url", "http://rapidgator.net/a", "x"] : List String).dropLast.filter
          (fun l => (validate_link l).valid)).length
    ∧ pacedAfterOutcome (process_links_batch netConst none
        ["not a url", "http://rapidgator.net/a", "x"]).1 = true :=
  C6_pacing netConst none ["not a url", "http://rapidgator.net/a", "x"] (by decide)

/-- C7: `extract_links_from_text` returns the deduplicated matched URL
tokens whose parsed hostname is supported: every returned URL parses to a
supported hostname; the result is duplicate-free; empty text gives the
empty result; text with only unsupported hosts keeps only nothing — in the
mixed example only the rapidgator URL survives; the same URL three times
gives a single element; and a matched token without a usable hostname
(`http:///broken`) is dropped silently while extraction still returns the
rest. -/
theorem C7_extraction :
    (extract_links_from_text "" = [])
    ∧ (∀ (text url : String), url ∈ extract_links_from_text text →
        ∃ hostname, urlparseHostname url = .ok (some hostname)
          ∧ anyHostIn (lowerStr hostname) = true)
    ∧ (∀ text : String, (extract_links_from_text text).Nodup)
    ∧ (extract_links_from_text
        "visit http://example.com/file and http://rapidgator.net/x"
        = ["http://rapidgator.net/x"])
    ∧ (extract_links_from_text
        "http://rapidgator.net/x http://rapidgator.net/x http://rapidgator.net/x"
        = ["http://rapidgator.net/x"])
    ∧ (extract_links_from_text "see http:///broken and http://uploaded.net/ok"
        = ["http://uploaded.net/ok"]) := by
  refine ⟨rfl, ?_, ?_, rfl, rfl, rfl⟩
  · intro text url hmem
    unfold extract_links_from_text at hmem
    have hf : url ∈ (findUrls text.data).filter extract_keeps :=
      List.mem_dedup.mp hmem
    have hk : extract_keeps url = true := (List.mem_filter.mp hf).2
    unfold extract_keeps at hk
    cases hp : urlparseHostname url with
    | error e => rw [hp] at hk; exact absurd hk (by simp)
    | ok o =>
      cases o with
      | none => rw [hp] at hk; exact absurd hk (by simp)
      | some hostname =>
        rw [hp] at hk
        exact ⟨hostname, rfl, hk⟩
  · intro text
    exact List.nodup_dedup _

/-- C7, witness: the extracted turbobit URL indeed parses to a supported
hostname. -/
theorem C7_witness :
    ∃ hostname,
      urlparseHostname "http://turbobit.net/z" = .ok (some hostname)
        ∧ anyHostIn (lowerStr hostname) = true :=
  C7_extraction.2.1 "go http://turbobit.net/z" "http://turbobit.net/z" (by
    have h : extract_links_from_text "go http://turbobit.net/z"
        = ["http://turbobit.net/z"] := rfl
    rw [h]
    exact List.mem_singleton.mpr rfl)

/-- C8: the host-support test applied (identically, at both call sites) to
a parsed hostname lower-cases it and succeeds iff some registry entry
occurs as a substring anywhere inside the lower-cased hostname; it is
case-insensitive (it depends only on the lower-casing); the validator's
`supported` flag and the extractor's filter are both exactly this test; and
in particular the hostname `"evil-rapidgator.net.attacker.com"` is
classified as supported because it contains the entry `"rapidgator.net"`. -/
theorem C8_substring_host_matching :
    (∀ hostname : String, hostSupported hostname = true ↔
        ∃ entry ∈ supported_hosts, ∃ l r,
          l ++ entry.data ++ r = (lowerStr hostname).data)
    ∧ (∀ h1 h2 : String, lowerStr h1 = lowerStr h2 →
        hostSupported h1 = hostSupported h2)
    ∧ (∀ (url hostname : String), urlparseHostname url = .ok (some hostname) →
        (validate_link url).supported = hostSupported hostname
          ∧ extract_keeps url = hostSupported hostname)
    ∧ hostSupported "evil-rapidgator.net.attacker.com" = true
    ∧ hostSupported "EVIL-RAPIDGATOR.NET.ATTACKER.COM" = true := by
  refine ⟨?_, ?_, ?_, by decide, by decide⟩
  · intro hostname
    unfold hostSupported anyHostIn
    rw [List.any_eq_true]
    constructor
    · rintro ⟨entry, hin, hc⟩
      exact ⟨entry, hin, (containsSeg_iff entry.data _).mp hc⟩
    · rintro ⟨entry, hin, hlr⟩
      exact ⟨entry, hin, (containsSeg_iff entry.data _).mpr hlr⟩
  · intro h1 h2 heq
    unfold hostSupported
    rw [heq]
  · intro url hostname hp
    constructor
    · unfold validate_link hostSupported
      rw [hp]
      dsimp only
      by_cases ha : anyHostIn (lowerStr hostname) = true
      · simp [ha]
      · rw [Bool.not_eq_true] at ha
        simp [ha]
    · unfold extract_keeps hostSupported
      rw [hp]

/-- C8, witness: the test is case-insensitive — a mixed-case spelling of a
registry hostname is classified exactly like its lower-case form. -/
theorem C8_witness :
    hostSupported "RapidGator.NET" = hostSupported "rapidgator.net" :=
  C8_substring_host_matching.2.1 "RapidGator.NET" "rapidgator.net" (by decide)

/-- C9: the summary counts successes and failures exactly (the two counts
partition the outcome list), and the success rate is
`successes / (successes + failures) * 100`, defined as `0` when there are
no outcomes at all; `summarize([]) = (0, 0, 0)` and three successes plus
one failure give `(3, 1, 75)`. -/
theorem C9_summary_math :
    (∀ results : List ResolutionOutcome,
      (display_results_summary results).1
          = (results.filter (fun r => r.success)).length
      ∧ (display_results_summary results).2.1
          = (results.filter (fun r => !r.success)).length
      ∧ (display_results_summary results).2.2
          = (if (results.filter (fun r => r.success)).length
                + (results.filter (fun r => !r.success)).length = 0 then (0 : ℚ)
             else ((results.filter (fun r => r.success)).length : ℚ)
                / (((results.filter (fun r => r.success)).length : ℚ)
                    + ((results.filter (fun r => !r.success)).length : ℚ)) * 100))
    ∧ display_results_summary [] = (0, 0, 0)
    ∧ display_results_summary
        [{ success := true, data := some .null, original_link := "a" },
         { success := true, data := some .null, original_link := "b" },
         { success := true, data := some .null, original_link := "c" },
         { success := false, error := some (.str "err"), original_link := "d" }]
        = (3, 1, 75) := by
  have hmain : ∀ results : List ResolutionOutcome,
      (display_results_summary results).1
          = (results.filter (fun r => r.success)).length
      ∧ (display_results_summary results).2.1
          = (results.filter (fun r => !r.success)).length
      ∧ (display_results_summary results).2.2
          = (if (results.filter (fun r => r.success)).length
                + (results.filter (fun r => !r.success)).length = 0 then (0 : ℚ)
             else ((results.filter (fun r => r.success)).length : ℚ)
                / (((results.filter (fun r => r.success)).length : ℚ)
                    + ((results.filter (fun r => !r.success)).length : ℚ)) * 100) := by
    intro results
    unfold display_results_summary
    rw [foldl_success_counts results 0 0]
    dsimp only
    refine ⟨by simp, by simp, ?_⟩
    simp only [Nat.zero_add]
    by_cases hz : (results.filter (fun r => r.success)).length
        + (results.filter (fun r => !r.success)).length = 0
    · simp [hz]
    · have hpos := Nat.pos_of_ne_zero hz
      simp [hz, hpos]
  refine ⟨hmain, rfl, ?_⟩
  rcases hmain
      [{ success := true, data := some .null, original_link := "a" },
       { success := true, data := some .null, original_link := "b" },
       { success := true, data := some .null, original_link := "c" },
       { success := false, error := some (.str "err"), original_link := "d" }]
    with ⟨h1, h2, h3⟩
  refine Prod.ext ?_ (Prod.ext ?_ ?_)
  · rw [h1]; decide
  · rw [h2]; decide
  · rw [h3]; norm_num [List.filter]

/-- C10: the URL pattern is matched case-sensitively, so extraction finds
nothing in any text that nowhere contains the lower-case character run
`http` — in particular in texts whose only URLs spell the scheme with
upper-case letters — while the identical lower-case URL is extracted. -/
theorem C10_case_sensitive_scheme :
    (∀ text : String, containsSeg "http".data text.data = false →
        extract_links_from_text text = [])
    ∧ extract_links_from_text "HTTP://rapidgator.net/x" = []
    ∧ extract_links_from_text
        "Visit HTTPS://Rapidgator.net/x and HtTp://uploaded.net/f" = []
    ∧ extract_links_from_text "http://rapidgator.net/x"
        = ["http://rapidgator.net/x"] := by
  refine ⟨?_, rfl, rfl, rfl⟩
  intro text h
  unfold extract_links_from_text findUrls
  rw [findUrlsAux_no_http text.data.length text.data h]
  rfl

/-- C10, witness: an upper-case-scheme rapidgator URL is not extracted. -/
theorem C10_witness :
    extract_links_from_text "download HTTPS://rapidgator.net/y now" = [] :=
  C10_case_sensitive_scheme.1 "download HTTPS://rapidgator.net/y now" (by decide)

end StreamingScraper
